import Mathlib

/-!
Verification of the BIEM (Bio-Inspired Evolving Memory) engine.

This file gives a shallow embedding of the memory subsystem of the
OmniEmployee repository and proves (or refutes) the specified properties.
Python floats are modelled as rationals, Python dicts as association
lists in insertion order, and SQL tables as lists of rows.  Fallible
Python code is modelled with Except.
-/

namespace BIEM

/-! ## Python string helpers

Models of the Python string operations used by the code
(`str.lower`, `str.strip`, the `in` substring test), restricted to the
ASCII range that the code relies on. -/

/-- Model of lower-casing a character (ASCII range, as used by the code
for predicates, subjects and confirmation keywords). -/
def lowerChar (c : Char) : Char :=
  if 65 ≤ c.toNat ∧ c.toNat ≤ 90 then Char.ofNat (c.toNat + 32) else c

/-- Model of Python `s.lower()` on the character list of a string. -/
def lowerChars (l : List Char) : List Char := l.map lowerChar

/-- Whitespace test used to model Python `str.strip()`. -/
def isSpaceChar (c : Char) : Bool :=
  c = ' ' ∨ c = '\t' ∨ c = '\n' ∨ c = '\r'

/-- Model of Python `str.strip()`: drop whitespace from both ends. -/
def trimChars (l : List Char) : List Char :=
  ((l.dropWhile isSpaceChar).reverse.dropWhile isSpaceChar).reverse

/-- Does `sub` occur at the head of `l`? -/
def leadMatch : List Char → List Char → Bool
  | [], _ => true
  | _ :: _, [] => false
  | c :: cs, d :: ds => c = d && leadMatch cs ds

/-- Model of the Python substring test `sub in l`. -/
def hasSub (sub : List Char) : List Char → Bool
  | [] => leadMatch sub []
  | c :: t => leadMatch sub (c :: t) || hasSub sub t

/-! ## Data model (`memory/models.py`)

`MemoryNode` is embedded with exactly the fields of the Python
dataclass.  Note that the dataclass has NO `user_id` field. -/

/-- `LinkType` enum from `memory/models.py`. -/
inductive LinkTypeM
  | temporal
  | semantic
  | causal
deriving DecidableEq, Repr

/-- `Link` dataclass from `memory/models.py`. -/
structure LinkM where
  sourceId : String
  targetId : String
  linkType : LinkTypeM
  weight : ℚ
  createdAt : ℚ
deriving DecidableEq, Repr

/-- `MemoryMetadata` dataclass from `memory/models.py`. -/
structure MemoryMetadata where
  timestamp : ℚ
  location : String
  entities : List String
  sentiment : ℚ
  source : String
  tags : List String
deriving DecidableEq, Repr

/-- `MemoryNode` dataclass from `memory/models.py` (fields in source
order; the dataclass defines no `user_id` field). -/
structure MemoryNode where
  id : String
  content : String
  vector : List ℚ
  metadata : MemoryMetadata
  energy : ℚ
  initialEnergy : ℚ
  lastAccessed : ℚ
  createdAt : ℚ
  tier : String
  links : List LinkM
deriving DecidableEq, Repr

/-- The field names of the `MemoryNode` dataclass, in source order
(`memory/models.py`, lines 91-100). -/
def memoryNodeFields : List String :=
  ["id", "content", "vector", "metadata", "energy", "initial_energy",
   "last_accessed", "created_at", "tier", "links"]

/-- The method names defined on `MemoryManager`
(`memory/memory_manager.py`). -/
def memoryManagerMethods : List String :=
  ["__init__", "initialize", "shutdown", "ingest", "recall",
   "get_context", "record_event", "get_pending_conflicts",
   "resolve_conflict", "get_node", "delete_node", "get_working_memory",
   "search_facts", "_ensure_initialized", "_find_similar_nodes",
   "get_stats", "set_embedding_callback", "set_importance_callback",
   "set_conflict_verify_callback", "set_consolidation_callback"]

/-- The instance attributes assigned in `MemoryManager.__init__`
(`memory/memory_manager.py`, lines 79-108). -/
def memoryManagerAttrs : List String :=
  ["config", "_l1", "_l2_vector", "_l2_graph", "_l3", "_energy",
   "_encoder", "_router", "_conflict", "_tier", "_initialized",
   "_pending_conflicts"]

/-- Methods and attributes that `web/app.py` invokes on the
`MemoryManager` instance for per-user scoping (`_memory.set_user_id(...)`
at lines 200, 906, 927 and `_memory._current_user_id` at line 941). -/
def webAppMemoryManagerUserCalls : List String :=
  ["set_user_id", "_current_user_id"]

/-- Model of `L1WorkingMemory._filter_by_user`
(`memory/storage/l1_working.py`, lines 39-43).  The list comprehension
reads `n.user_id` on each node; since the `MemoryNode` dataclass defines
no `user_id` attribute, the first element evaluated raises
`AttributeError`. -/
def filterByUser (userId : String) (nodes : List MemoryNode) :
    Except String (List MemoryNode) :=
  if userId = "" then .ok nodes
  else
    match nodes with
    | [] => .ok []
    | _ :: _ => .error "AttributeError: MemoryNode has no attribute user_id"

/-! ## L1 working memory (`memory/storage/l1_working.py`)

The node dict is an association list `(node_id, node)` in insertion
order; Python dict assignment keeps the position of an existing key. -/

/-- Python dict assignment `d[k] = v` for a string-keyed node dict. -/
def nodeDictAssign : List (String × MemoryNode) → String → MemoryNode →
    List (String × MemoryNode)
  | [], k, v => [(k, v)]
  | p :: rest, k, v =>
    if p.1 = k then (k, v) :: rest else p :: nodeDictAssign rest k v

/-- Ascending order by energy, as used by
`sorted(nodes, key=lambda n: n.energy)` (Python's stable sort is
modelled by insertion sort, which is also stable). -/
def energyAsc (a b : MemoryNode) : Prop := a.energy ≤ b.energy

/-- Descending order by energy, as used by
`heapq.nlargest(k, nodes, key=lambda n: n.energy)` (documented as
equivalent to a stable descending sort followed by `take k`). -/
def energyDesc (a b : MemoryNode) : Prop := b.energy ≤ a.energy

instance : DecidableRel energyAsc := fun a b =>
  inferInstanceAs (Decidable (a.energy ≤ b.energy))

instance : DecidableRel energyDesc := fun a b =>
  inferInstanceAs (Decidable (b.energy ≤ a.energy))

/-- `L1WorkingMemory._evict_lowest_energy` (lines 129-149): when over
capacity, sort the values by energy ascending and remove the first
`count - cap` of them from the dict; the removed nodes are returned. -/
def evictLowestEnergy (cap : ℕ) (d : List (String × MemoryNode)) :
    List (String × MemoryNode) × List MemoryNode :=
  if d.length ≤ cap then (d, [])
  else
    let sorted := (d.map Prod.snd).insertionSort energyAsc
    let k := d.length - cap
    let toEvict := sorted.take k
    let ids := toEvict.map MemoryNode.id
    (d.filter fun p => decide (p.1 ∉ ids), toEvict)

/-- `L1WorkingMemory.put` (lines 54-64): insert/overwrite the node with
`tier = "L1"`; if over capacity call `_evict_lowest_energy` but DISCARD
its result (the Python method ends without a return statement, i.e.
returns `None`, modelled as the second component being `none`). -/
def l1Put (cap : ℕ) (d : List (String × MemoryNode)) (n : MemoryNode) :
    List (String × MemoryNode) × Option (List MemoryNode) :=
  let d1 := nodeDictAssign d n.id { n with tier := "L1" }
  if cap < d1.length then ((evictLowestEnergy cap d1).1, none)
  else (d1, none)

/-- `L1WorkingMemory.get_top_k` (lines 97-100) with the default empty
`user_id`: the `k` highest-energy nodes (`heapq.nlargest` is documented
as equivalent to a stable descending sort followed by `take k`). -/
def getTopKByEnergy (nodes : List MemoryNode) (k : ℕ) : List MemoryNode :=
  (nodes.insertionSort energyDesc).take k

/-- `L1WorkingMemory.update_energy` clamp (line 116):
`max(0.0, min(1.0, new_energy))`. -/
def l1UpdateEnergyClamp (v : ℚ) : ℚ := max 0 (min 1 v)

/-- Well-formedness of the L1 node dict: keys are distinct and each key
is the id of its node (both invariants hold for Python dicts keyed by
`node.id`). -/
def L1Wf (d : List (String × MemoryNode)) : Prop :=
  (d.map Prod.fst).Nodup ∧ ∀ p ∈ d, p.1 = p.2.id

/-! ## Energy controller (`memory/operators/energy.py`)

`EnergyConfig` defaults: `decay_lambda = 0.001`, `min_energy = 0.01`,
`activation_boost = 0.1`, `max_energy = 1.0`. -/

/-- `EnergyConfig` (the fields the energy operations read). -/
structure EnergyConfig where
  minEnergy : ℚ
  activationBoost : ℚ
  maxEnergy : ℚ
deriving DecidableEq, Repr

/-- Default `EnergyConfig` values from the source. -/
def energyDefaults : EnergyConfig :=
  { minEnergy := 1/100, activationBoost := 1/10, maxEnergy := 1 }

/-- The energy-mutating operations a node's energy is subject to.
`decay dt f` models `calculate_decay` where `f` stands for the value of
`exp(-decay_lambda * dt)` (a real in `(0, 1]` whenever `dt > 0`).
`updateEnergy v` is `L1WorkingMemory.update_energy`, and `boost a` is
`EnergyController.boost_energy`. -/
inductive EnergyOp
  | boost (amount : ℚ)
  | decay (dt : ℚ) (factor : ℚ)
  | updateEnergy (value : ℚ)
deriving DecidableEq, Repr

/-- Effect of one energy operation on a node's energy value, embedded
from `energy.py` lines 74-80 and 118-119 and `l1_working.py` line 116. -/
def applyEnergyOp (cfg : EnergyConfig) (e : ℚ) : EnergyOp → ℚ
  | .boost a => min cfg.maxEnergy (e + a)
  | .decay dt f => if dt ≤ 0 then e else max cfg.minEnergy (e * f)
  | .updateEnergy v => max 0 (min 1 v)

/-- Effect of a sequence of energy operations. -/
def applyEnergyOps (cfg : EnergyConfig) (e : ℚ) (ops : List EnergyOp) : ℚ :=
  ops.foldl (applyEnergyOp cfg) e

/-- Side conditions satisfied by every operation the system actually
issues through `TierManager.get`/decay: decay factors model
`exp(-decay_lambda*dt)` and so lie in `[0, 1]`; access boosts
(`activation_boost` and positive feedback) are nonnegative. -/
def EnergyOpOK : EnergyOp → Prop
  | .boost a => 0 ≤ a
  | .decay _ f => 0 ≤ f ∧ f ≤ 1
  | .updateEnergy _ => True

/-! ## L2 graph store (`memory/storage/l2_graph.py`)

The `networkx.DiGraph` is embedded as a node list `(node_id, user_id)`
in insertion order plus an edge list keyed by `(source, target)`
(a `DiGraph` holds at most one edge per ordered node pair; `add_edge`
overwrites the attributes). -/

/-- An edge of the association graph with its attributes. -/
structure GEdge where
  src : String
  tgt : String
  linkType : String
  weight : ℚ
  createdAt : ℚ
deriving DecidableEq, Repr

/-- The association graph state. -/
structure GraphState where
  nodes : List (String × String)
  edges : List GEdge
deriving DecidableEq, Repr

/-- The empty graph. -/
def emptyGraph : GraphState := { nodes := [], edges := [] }

/-- `graph.has_node(id)`. -/
def hasNode (g : GraphState) (id : String) : Bool :=
  g.nodes.any fun p => decide (p.1 = id)

/-- `L2GraphStorage.add_node` (lines 63-69): add the node if absent; if
present with an empty `user_id` and a non-empty one is given, set it. -/
def addNode (g : GraphState) (id userId : String) : GraphState :=
  if hasNode g id then
    if userId ≠ "" then
      { g with nodes := g.nodes.map fun p =>
          if p.1 = id ∧ p.2 = "" then (p.1, userId) else p }
    else g
  else { g with nodes := g.nodes ++ [(id, userId)] }

/-- Outgoing edges of a node with their targets and weights
(`graph.successors` plus `get_edge_data(...)["weight"]`). -/
def successors (g : GraphState) (id : String) : List (String × ℚ) :=
  (g.edges.filter fun e => decide (e.src = id)).map fun e => (e.tgt, e.weight)

/-- Out-degree of a node. -/
def outDegree (g : GraphState) (id : String) : ℕ :=
  (g.edges.filter fun e => decide (e.src = id)).length

/-- `L2GraphStorage._prune_weakest_edge` (lines 306-316): remove the
minimum-weight outgoing edge of `id` (Python `min` picks the first
minimum). -/
def pruneWeakestEdge (g : GraphState) (id : String) : GraphState :=
  let outs := g.edges.filter fun e => decide (e.src = id)
  match outs with
  | [] => g
  | e0 :: rest =>
    let weakest := rest.foldl (fun w e => if e.weight < w.weight then e else w) e0
    { g with edges := g.edges.eraseP fun e =>
        decide (e.src = weakest.src ∧ e.tgt = weakest.tgt) }

/-- `DiGraph.add_edge` upsert keyed on `(source, target)`. -/
def upsertEdge : List GEdge → GEdge → List GEdge
  | [], e => [e]
  | f :: fs, e =>
    if f.src = e.src ∧ f.tgt = e.tgt then e :: fs else f :: upsertEdge fs e

/-- `L2GraphStorage.add_link` (lines 79-100): ensure both endpoints
exist, prune the weakest outgoing edge when the source is at the edge
cap, then add/overwrite the edge. -/
def addLink (g : GraphState) (l : LinkM) (userId : String)
    (maxEdgesPerNode : ℕ) : GraphState :=
  let g1 := addNode g l.sourceId userId
  let g2 := addNode g1 l.targetId userId
  let g3 := if maxEdgesPerNode ≤ outDegree g2 l.sourceId
            then pruneWeakestEdge g2 l.sourceId else g2
  let newEdge : GEdge :=
    { src := l.sourceId, tgt := l.targetId,
      linkType := (match l.linkType with
        | .temporal => "temporal" | .semantic => "semantic"
        | .causal => "causal"),
      weight := l.weight, createdAt := l.createdAt }
  { g3 with edges := upsertEdge g3.edges newEdge }

/-! ### Spreading activation (`l2_graph.py`, lines 176-230)

Waves and the accumulated activation map are dicts `node_id → score`,
embedded as association lists in insertion order. -/

/-- `d[k] = max(d.get(k, default), v)`-style insertion used when merging
wavefront candidates. -/
def waveInsertMax : List (String × ℚ) → String → ℚ → List (String × ℚ)
  | [], k, v => [(k, v)]
  | p :: rest, k, v =>
    if p.1 = k then (k, max p.2 v) :: rest else p :: waveInsertMax rest k v

/-- Plain dict assignment `d[k] = v` for score dicts. -/
def scoreDictAssign : List (String × ℚ) → String → ℚ → List (String × ℚ)
  | [], k, v => [(k, v)]
  | p :: rest, k, v =>
    if p.1 = k then (k, v) :: rest else p :: scoreDictAssign rest k v

/-- `activation.get(node_id, 0)` on a score dict (a `defaultdict(float)`
defaults to `0.0`). -/
def actLookup (a : List (String × ℚ)) (n : String) : ℚ :=
  ((a.find? fun p => decide (p.1 = n)).map Prod.snd).getD 0

/-- `activation[k] = max(activation[k], score)` for every entry of a
wave (lines 200-201 and 221-223). -/
def mergeMax (a w : List (String × ℚ)) : List (String × ℚ) :=
  w.foldl (fun acc p => waveInsertMax acc p.1 p.2) a

/-- `_get_user_nodes` (lines 43-47): the node ids of the user partition
(all graph nodes when `user_id` is empty). -/
def validNodes (g : GraphState) (userId : String) : List String :=
  if userId = "" then g.nodes.map Prod.fst
  else (g.nodes.filter fun p => decide (p.2 = userId)).map Prod.fst

/-- One wavefront expansion (lines 204-219): for each active node,
spread `score * decay_factor * weight` along each outgoing edge whose
target is in the user partition, keep candidates above `0.01`, and take
the maximum over all incoming paths. -/
def spreadCollect (g : GraphState) (valid : List String) (decay : ℚ)
    (wave : List (String × ℚ)) : List (String × ℚ) :=
  wave.foldl
    (fun nw p =>
      (successors g p.1).foldl
        (fun nw2 q =>
          if decide (q.1 ∈ valid) then
            let na := p.2 * decay * q.2
            if 1/100 < na then waveInsertMax nw2 q.1 na else nw2
          else nw2)
        nw)
    []

/-- The hop loop of `spread_activation` (lines 203-228): for each hop
compute the next wave, merge it into the activation map, and stop early
when the wave is empty. -/
def spreadLoop (g : GraphState) (valid : List String) (decay : ℚ) :
    ℕ → List (String × ℚ) → List (String × ℚ) → List (String × ℚ)
  | 0, act, _ => act
  | h + 1, act, wave =>
    let nw := spreadCollect g valid decay wave
    let act2 := mergeMax act nw
    if nw.isEmpty then act2 else spreadLoop g valid decay h act2 nw

/-- `L2GraphStorage.spread_activation` (lines 176-230): seed the wave
with `1.0` on every start node in the user partition, record the seeds
in the activation map, then run the hop loop. -/
def spreadActivation (g : GraphState) (startIds : List String)
    (maxHops : ℕ) (decay : ℚ) (userId : String) : List (String × ℚ) :=
  let valid := validNodes g userId
  let w0 := startIds.foldl
    (fun acc s => if decide (s ∈ valid) then scoreDictAssign acc s 1 else acc) []
  let act0 := mergeMax [] w0
  spreadLoop g valid decay maxHops act0 w0

/-! ## L3 crystal store and tier manager
(`memory/storage/l3_crystal.py`, `memory/tier_manager.py`) -/

/-- The method names defined on `L3CrystalStorage`
(`memory/storage/l3_crystal.py`).  Note the absence of `get_all_links`,
which `TierManager._restore_graph_from_l3` calls. -/
def l3CrystalStorageMethods : List String :=
  ["__init__", "connect", "disconnect", "store_fact", "get_fact",
   "update_fact", "delete_fact", "search_facts_by_content",
   "get_facts_by_source", "get_recent_facts", "get_high_confidence_facts",
   "store_link", "get_links_for_node", "get_outgoing_links",
   "delete_link", "update_link_weight", "clear_all", "get_stats",
   "_row_to_fact", "_row_to_link"]

/-- `TierManager._restore_graph_from_l3` (lines 109-124): inside a
`try`, call `self.l3.get_all_links(limit=10000)` and add each returned
link to the graph.  The attribute lookup `l3.get_all_links` is evaluated
first; since `L3CrystalStorage` defines no such method it raises
`AttributeError`, the `except` swallows it, and the graph is returned
unchanged. -/
def restoreGraphFromL3 (l3Available : Bool) (dbLinks : List LinkM)
    (g : GraphState) : GraphState :=
  if l3Available = false then g
  else if "get_all_links" ∈ l3CrystalStorageMethods then
    (dbLinks.take 10000).foldl (fun gg l => addLink gg l "" 50) g
  else g

/-- The tier configuration thresholds read by `TierManager.store`
(`tier_manager.py`, lines 24-41). -/
structure TierConfig where
  l1EnergyThreshold : ℚ
  l2ToL1Threshold : ℚ
  l1ToL2Threshold : ℚ
deriving DecidableEq, Repr

/-- Default `TierConfig` values from the source. -/
def tierDefaults : TierConfig :=
  { l1EnergyThreshold := 1/2, l2ToL1Threshold := 7/10, l1ToL2Threshold := 3/10 }

/-- The storage writes `TierManager.store` can issue. -/
inductive TierWrite
  | l1
  | l2vector
  | l2graph
deriving DecidableEq, Repr

/-- `TierManager.store` (lines 137-160) as a write trace: raise when the
node has no vector; write to L1 first when
`energy ≥ l1_energy_threshold`; then always write to the L2 vector
store; then add the node to the L2 graph.  Also returns the tier
assigned to the node. -/
def tierStoreWrites (cfg : TierConfig) (n : MemoryNode) :
    Except String (List TierWrite × String) :=
  if n.vector.isEmpty then .error "Node must have vector embedding"
  else if cfg.l1EnergyThreshold ≤ n.energy then
    .ok ([.l1, .l2vector, .l2graph], "L1")
  else
    .ok ([.l2vector, .l2graph], "L2")

/-! ## Knowledge store (`memory/knowledge/store.py`)

The `knowledge_triples` table is a list of rows; the DDL declares
`UNIQUE(subject, predicate)` — a case-SENSITIVE constraint — and
`store` upserts with `ON CONFLICT (subject, predicate)`, so the upsert
arbiter is exact string equality.  The `knowledge_history` table is a
second list of rows. -/

/-- A row of `knowledge_triples` (the columns the code reads/writes). -/
structure KTriple where
  id : String
  subject : String
  predicate : String
  object : String
  confidence : ℚ
  source : String
  version : ℕ
  previousValues : List String
  sessionId : String
  userId : String
deriving DecidableEq, Repr

/-- A row of `knowledge_history` (the generated UUID primary key is
omitted from the model). -/
structure HistoryRow where
  tripleId : String
  oldValue : String
  newValue : String
  reason : String
  confirmed : Bool
  sessionId : String
deriving DecidableEq, Repr

/-- The knowledge database state. -/
structure KDB where
  triples : List KTriple
  history : List HistoryRow
deriving DecidableEq, Repr

/-- The empty knowledge database. -/
def emptyKDB : KDB := { triples := [], history := [] }

/-- The `DO UPDATE SET` clause of `KnowledgeStore.store`
(`store.py`, lines 176-183): overwrite `object` and `source`, keep the
larger `confidence`, bump `version`, append the old `object` to
`previous_values`; `id`, `session_id` and `user_id` of the existing row
are untouched. -/
def upsertRow (r t : KTriple) : KTriple :=
  { r with object := t.object
         , confidence := max r.confidence t.confidence
         , source := t.source
         , version := r.version + 1
         , previousValues := r.previousValues ++ [r.object] }

/-- `INSERT ... ON CONFLICT (subject, predicate) DO UPDATE` over the row
list: the conflict arbiter is EXACT equality on `(subject, predicate)`
(Postgres `UNIQUE` on `VARCHAR` is case-sensitive). -/
def storeRows : List KTriple → KTriple → List KTriple
  | [], t => [t]
  | r :: rs, t =>
    if r.subject = t.subject ∧ r.predicate = t.predicate then
      upsertRow r t :: rs
    else r :: storeRows rs t

/-- `KnowledgeStore.store` (lines 158-197): upsert into
`knowledge_triples`; no history row is written by this method. -/
def storeTriple (db : KDB) (t : KTriple) : KDB :=
  { db with triples := storeRows db.triples t }

/-- Lookup by exact `(subject, predicate)` key. -/
def findByKey : List KTriple → String → String → Option KTriple
  | [], _, _ => none
  | r :: rs, s, p =>
    if r.subject = s ∧ r.predicate = p then some r else findByKey rs s p

/-- A sequence of `store` calls starting from an empty database. -/
def applyStores (ts : List KTriple) : KDB := ts.foldl storeTriple emptyKDB

/-- Two rows clash when their exact `(subject, predicate)` keys are
equal. -/
def KeyClash (a b : KTriple) : Prop :=
  a.subject = b.subject ∧ a.predicate = b.predicate

/-- `KnowledgeStore.update` (lines 232-290) over the row list: find the
row by id and apply the `UPDATE ... SET` clause; also report the old
`object` value. -/
def updateRows : List KTriple → String → String → String → ℚ →
    List KTriple × Option String
  | [], _, _, _, _ => ([], none)
  | r :: rs, tid, newObj, src, conf =>
    if r.id = tid then
      ({ r with object := newObj, confidence := conf, source := src,
                version := r.version + 1,
                previousValues := r.previousValues ++ [r.object] } :: rs,
       some r.object)
    else
      let res := updateRows rs tid newObj src conf
      (r :: res.1, res.2)

/-- `KnowledgeStore.update`: when the row exists, update it and insert a
history row in the same transaction; otherwise no change. -/
def updateTriple (db : KDB) (tid newObj src : String) (conf : ℚ)
    (sess : String) : KDB :=
  match updateRows db.triples tid newObj src conf with
  | (_, none) => db
  | (rows2, some oldv) =>
    { triples := rows2,
      history := db.history ++
        [{ tripleId := tid, oldValue := oldv, newValue := newObj,
           reason := src, confirmed := true, sessionId := sess }] }

/-! ## Confirmation manager and the confirmation-response flow
(`memory/knowledge/conflict.py`, `memory/knowledge/integration.py`) -/

/-- An entry of `ConfirmationManager._pending`: the pending key, the new
triple, and the existing conflicting triple if any. -/
structure PendingEntry where
  key : String
  newTriple : KTriple
  existing : Option KTriple
deriving DecidableEq, Repr

/-- The state the confirmation flow touches: the pending dict (in
insertion order) and the knowledge database. -/
structure ConfirmationState where
  pending : List PendingEntry
  db : KDB
deriving DecidableEq, Repr

/-- Python `dict.pop(key, None)`: remove and return the entry with the
given key, if present. -/
def popPending : List PendingEntry → String →
    Option PendingEntry × List PendingEntry
  | [], _ => (none, [])
  | e :: es, k =>
    if e.key = k then (some e, es)
    else
      let res := popPending es k
      (res.1, e :: res.2)

/-- `ConfirmationManager.confirm` (`conflict.py`, lines 170-202): pop the
pending entry; if it conflicts with an existing triple, run
`store.update` on the existing row (source `user_verified`, confidence
`1.0`); otherwise `store.store` the new triple with source
`user_verified` and confidence `1.0`. -/
def confirmPending (st : ConfirmationState) (k sess : String) :
    ConfirmationState × Bool :=
  match popPending st.pending k with
  | (none, _) => (st, false)
  | (some e, rest) =>
    match e.existing with
    | some ex =>
      ({ pending := rest,
         db := updateTriple st.db ex.id e.newTriple.object "user_verified" 1 sess },
       true)
    | none =>
      ({ pending := rest,
         db := storeTriple st.db
           { e.newTriple with source := "user_verified", confidence := 1 } },
       true)

/-- `ConfirmationManager.reject` (lines 204-213): pop the pending entry. -/
def rejectPending (st : ConfirmationState) (k : String) :
    ConfirmationState × Bool :=
  match popPending st.pending k with
  | (none, _) => (st, false)
  | (some _, rest) => ({ st with pending := rest }, true)

/-- The positive vocabulary of `process_confirmation_response`
(`integration.py`, line 274). -/
def positiveResponses : List String :=
  ["是", "是的", "对", "对的", "确认", "更新", "yes", "y", "确定", "好的", "ok"]

/-- The negative vocabulary of `process_confirmation_response`
(`integration.py`, line 275). -/
def negativeResponses : List String :=
  ["不", "不是", "否", "取消", "no", "n", "算了", "不用"]

/-- `message.lower().strip()` (line 273). -/
def normMessage (m : String) : List Char := trimChars (lowerChars m.data)

/-- `any(r in msg_lower for r in positive_responses)` (line 277). -/
def isPositiveResponse (m : String) : Bool :=
  positiveResponses.any fun r => hasSub r.data (normMessage m)

/-- `any(r in msg_lower for r in negative_responses)` (line 278). -/
def isNegativeResponse (m : String) : Bool :=
  negativeResponses.any fun r => hasSub r.data (normMessage m)

/-- The effect of confirming one pending entry on the database (the two
branches of `ConfirmationManager.confirm`). -/
def execPending (sess : String) (db : KDB) (e : PendingEntry) : KDB :=
  match e.existing with
  | some ex => updateTriple db ex.id e.newTriple.object "user_verified" 1 sess
  | none => storeTriple db
      { e.newTriple with source := "user_verified", confidence := 1 }

/-- `KnowledgeLearningPlugin.process_confirmation_response`
(`integration.py`, lines 255-294): when nothing is pending, or the
message matches neither vocabulary, report unhandled.  Otherwise
snapshot ALL pending keys and confirm (positive) or reject (negative)
every one of them. -/
def processConfirmationResponse (st : ConfirmationState) (msg sess : String) :
    ConfirmationState × Bool × String :=
  if st.pending.isEmpty then (st, false, "")
  else
    let isPos := isPositiveResponse msg
    let isNeg := isNegativeResponse msg
    if !isPos && !isNeg then (st, false, "")
    else
      let keys := st.pending.map PendingEntry.key
      if isPos then
        (keys.foldl (fun s k => (confirmPending s k sess).1) st, true,
         "好的，知识已更新！")
      else
        (keys.foldl (fun s k => (rejectPending s k).1) st, true,
         "好的，保持原有记录。")

/-! ## Recall (`memory/memory_manager.py`, lines 184-269)

The embedding backend and the L2 vector/tier lookups are external
collaborators; they enter the model as function parameters.  The L1
fallback (`get_top_k`) and the graph spreading are the concrete
embeddings above. -/

/-- `MemoryManager.recall`: fall back to the k highest-energy L1 nodes
when the query embedding is empty or all-zero, or when the vector search
returns no hits; otherwise optionally fuse vector similarity with graph
activation (70/30) and return the top `k` by fused score. -/
def recallFn (searchFn : List ℚ → ℕ → List (MemoryNode × ℚ))
    (tierGet : String → Option MemoryNode) (g : GraphState)
    (l1nodes : List MemoryNode) (qv : List ℚ) (k : ℕ)
    (hops : ℕ) (decay : ℚ) (useSpreading : Bool) : List MemoryNode :=
  if qv.isEmpty || qv.all (fun v => decide (v = 0)) then
    getTopKByEnergy l1nodes k
  else
    let initialResults := searchFn qv (k * 2)
    if initialResults.isEmpty then getTopKByEnergy l1nodes k
    else if useSpreading then
      let initialIds := (initialResults.take 5).map fun p => p.1.id
      let act := spreadActivation g initialIds hops decay ""
      let combined := initialResults.foldl
        (fun c p => scoreDictAssign c p.1.id
          (7/10 * p.2 + 3/10 * actLookup act p.1.id)) []
      let combined2 := act.foldl
        (fun c p =>
          if (c.find? fun q => decide (q.1 = p.1)).isSome then c
          else if 1/10 < p.2 then
            match tierGet p.1 with
            | some _ => scoreDictAssign c p.1 (p.2 * (1/2))
            | none => c
          else c)
        combined
      let sortedIds :=
        (((combined2.insertionSort fun a b => b.2 ≤ a.2).take k).map
          Prod.fst)
      sortedIds.filterMap tierGet
    else (initialResults.take k).map Prod.fst

/-! ## Concrete example values used in counterexamples and witnesses -/

/-- Empty metadata for example nodes. -/
def exMetadata : MemoryMetadata :=
  { timestamp := 0, location := "", entities := [], sentiment := 0,
    source := "user", tags := [] }

/-- A high-energy example node. -/
def exNodeA : MemoryNode :=
  { id := "a", content := "alpha", vector := [1], metadata := exMetadata,
    energy := 9/10, initialEnergy := 9/10, lastAccessed := 0,
    createdAt := 0, tier := "L1", links := [] }

/-- A low-energy example node. -/
def exNodeB : MemoryNode :=
  { id := "b", content := "beta", vector := [1], metadata := exMetadata,
    energy := 2/10, initialEnergy := 2/10, lastAccessed := 0,
    createdAt := 0, tier := "L1", links := [] }

/-- A mid-energy example node. -/
def exNodeC : MemoryNode :=
  { id := "c", content := "gamma", vector := [1], metadata := exMetadata,
    energy := 6/10, initialEnergy := 6/10, lastAccessed := 0,
    createdAt := 0, tier := "L2", links := [] }

/-- An example link row as persisted in `crystal_links`. -/
def exLink : LinkM :=
  { sourceId := "n1", targetId := "n2", linkType := .semantic,
    weight := 1, createdAt := 0 }

/-- An example knowledge triple. -/
def exTripleA : KTriple :=
  { id := "t1", subject := "Python", predicate := "created_by",
    object := "Guido", confidence := 8/10, source := "conversation",
    version := 1, previousValues := [], sessionId := "", userId := "u1" }

/-- A triple whose key differs from `exTripleC` only in letter case. -/
def exTripleB : KTriple :=
  { id := "t2", subject := "A", predicate := "p", object := "x",
    confidence := 8/10, source := "conversation", version := 1,
    previousValues := [], sessionId := "", userId := "u1" }

/-- A triple whose key differs from `exTripleB` only in letter case. -/
def exTripleC : KTriple :=
  { id := "t3", subject := "a", predicate := "p", object := "y",
    confidence := 8/10, source := "conversation", version := 1,
    previousValues := [], sessionId := "", userId := "u2" }

/-- An example L1 dict holding one node. -/
def exDict : List (String × MemoryNode) := [("a", exNodeA)]

/-- An example association graph: `A → B → C` with weight-1 edges. -/
def exGraph : GraphState :=
  { nodes := [("A", ""), ("B", ""), ("C", "")],
    edges := [{ src := "A", tgt := "B", linkType := "semantic",
                weight := 1, createdAt := 0 },
              { src := "B", tgt := "C", linkType := "semantic",
                weight := 1, createdAt := 0 }] }

/-- A pending update with no conflicting existing triple. -/
def exPending1 : PendingEntry :=
  { key := "pending_t2", newTriple := exTripleB, existing := none }

/-- A pending update that conflicts with `exTripleA`. -/
def exPending2 : PendingEntry :=
  { key := "pending_t3", newTriple :=
      { exTripleA with id := "t9", object := "Guido van Rossum" },
    existing := some exTripleA }

/-- An example confirmation state with two queued pending updates. -/
def exConfState : ConfirmationState :=
  { pending := [exPending1, exPending2],
    db := { triples := [exTripleA], history := [] } }

/-! ## General-purpose lemmas -/

theorem foldlPreserve {α β : Type} {P : β → Prop} {f : β → α → β}
    (hf : ∀ b a, P b → P (f b a)) :
    ∀ (l : List α) (b : β), P b → P (l.foldl f b) := by
  intro l
  induction l with
  | nil => intro b hb; exact hb
  | cons a as ih => intro b hb; exact ih (f b a) (hf b a hb)

theorem pairwiseTakeDrop {α : Type} {R : α → α → Prop} {l : List α}
    (h : l.Pairwise R) (k : ℕ) :
    ∀ a ∈ l.take k, ∀ b ∈ l.drop k, R a b := by
  have h2 : (l.take k ++ l.drop k).Pairwise R := by
    rwa [List.take_append_drop]
  exact (List.pairwise_append.mp h2).2.2

instance : IsTotal MemoryNode energyAsc :=
  ⟨fun a b => le_total a.energy b.energy⟩

instance : IsTrans MemoryNode energyAsc :=
  ⟨fun _ _ _ hab hbc => le_trans hab hbc⟩

instance : IsTotal MemoryNode energyDesc :=
  ⟨fun a b => le_total b.energy a.energy⟩

instance : IsTrans MemoryNode energyDesc :=
  ⟨fun _ _ _ hab hbc => le_trans hbc hab⟩

/-! ## C1 — per-user memory isolation -/

/-- C1: the spec claims every `MemoryNode` carries a `user_id` partition
key and that `MemoryManager` scopes every operation by an implicit
`current_user_id` mutable via `set_user_id`.  In the code neither
exists: the `MemoryNode` dataclass has no `user_id` field, the
`MemoryManager` class defines neither `set_user_id` nor a
`_current_user_id` attribute, while `web/app.py` (a caller in this
repository) invokes `set_user_id` on the manager, and
`L1WorkingMemory._filter_by_user` raises `AttributeError` as soon as it
filters a non-empty node list by a non-empty `user_id`. -/
theorem memory_user_isolation_missing :
    "user_id" ∉ memoryNodeFields ∧
    "set_user_id" ∉ memoryManagerMethods ∧
    "_current_user_id" ∉ memoryManagerAttrs ∧
    "set_user_id" ∈ webAppMemoryManagerUserCalls ∧
    filterByUser "u1" [exNodeA] =
      .error "AttributeError: MemoryNode has no attribute user_id" := by
  refine ⟨by decide, by decide, by decide, by decide, rfl⟩

/-! ## C6 — graph re-hydration from L3 -/

/-- C6: the spec claims that after `connect_all` with L3 available the
L2 graph contains every link persisted in `crystal_links` (cap 10000).
In the code `TierManager._restore_graph_from_l3` calls
`self.l3.get_all_links(limit=10000)`, but `L3CrystalStorage` defines no
method of that name; the `AttributeError` is swallowed by the
surrounding `except`, so no link is ever restored: with one persisted
link, the graph after restoration is still empty. -/
theorem restore_graph_from_l3_restores_nothing :
    "get_all_links" ∉ l3CrystalStorageMethods ∧
    restoreGraphFromL3 true [exLink] emptyGraph = emptyGraph ∧
    (restoreGraphFromL3 true [exLink] emptyGraph).edges = [] := by
  refine ⟨by decide, ?_, ?_⟩ <;> rfl

/-! ## C4 — write order within a single ingest -/

/-- C4 counterexample: the claim says the writes of `TierManager.store`
happen strictly in the order L2 vector → L2 graph → L1 for every node.
For a node with `energy = 0.9 ≥ l1_energy_threshold` the code writes L1
FIRST: the trace is `[L1, L2 vector, L2 graph]`, not
`[L2 vector, L2 graph, L1]`. -/
theorem tier_store_writes_l1_first_counterexample :
    tierStoreWrites tierDefaults exNodeA =
      .ok ([TierWrite.l1, TierWrite.l2vector, TierWrite.l2graph], "L1") ∧
    [TierWrite.l1, TierWrite.l2vector, TierWrite.l2graph] ≠
      [TierWrite.l2vector, TierWrite.l2graph, TierWrite.l1] := by
  constructor
  · have hv : exNodeA.vector.isEmpty = false := rfl
    have hth : tierDefaults.l1EnergyThreshold ≤ exNodeA.energy := by
      show (1 : ℚ)/2 ≤ 9/10
      norm_num
    simp [tierStoreWrites, hv, hth]
  · decide

/-- C4 (amended): within a single `TierManager.store` of a node with a
vector, the L2 vector write always precedes the L2 graph write; the L1
write happens exactly when `energy ≥ l1_energy_threshold`, and when it
happens it comes FIRST (before the L2 vector write), not last. -/
theorem tier_store_write_order (cfg : TierConfig) (n : MemoryNode)
    (hv : n.vector ≠ []) :
    ∀ tr tier, tierStoreWrites cfg n = .ok (tr, tier) →
      tr.indexOf TierWrite.l2vector < tr.indexOf TierWrite.l2graph ∧
      (TierWrite.l1 ∈ tr ↔ cfg.l1EnergyThreshold ≤ n.energy) ∧
      (TierWrite.l1 ∈ tr → tr.indexOf TierWrite.l1 < tr.indexOf TierWrite.l2vector) := by
  have hv2 : n.vector.isEmpty = false := by
    cases hvec : n.vector with
    | nil => exact absurd hvec hv
    | cons a l => rfl
  intro tr tier hok
  by_cases h : cfg.l1EnergyThreshold ≤ n.energy
  · have htr : tr = [TierWrite.l1, TierWrite.l2vector, TierWrite.l2graph] := by
      simp only [tierStoreWrites, hv2, Bool.false_eq_true, if_false, if_pos h,
        Except.ok.injEq, Prod.mk.injEq] at hok
      exact hok.1.symm
    subst htr
    exact ⟨by decide, ⟨fun _ => h, fun _ => by decide⟩, fun _ => by decide⟩
  · have htr : tr = [TierWrite.l2vector, TierWrite.l2graph] := by
      simp only [tierStoreWrites, hv2, Bool.false_eq_true, if_false, if_neg h,
        Except.ok.injEq, Prod.mk.injEq] at hok
      exact hok.1.symm
    subst htr
    exact ⟨by decide, ⟨fun hm => absurd hm (by decide), fun hc => absurd hc h⟩,
      fun hm => absurd hm (by decide)⟩

/-- C4 witness: the amended write-order theorem at a concrete
high-energy node whose trace is `[L1, L2 vector, L2 graph]`. -/
theorem tier_store_write_order_witness :
    tierStoreWrites tierDefaults exNodeC =
      .ok ([TierWrite.l1, TierWrite.l2vector, TierWrite.l2graph], "L1") ∧
    [TierWrite.l1, TierWrite.l2vector, TierWrite.l2graph].indexOf TierWrite.l2vector <
      [TierWrite.l1, TierWrite.l2vector, TierWrite.l2graph].indexOf TierWrite.l2graph ∧
    (TierWrite.l1 ∈ [TierWrite.l1, TierWrite.l2vector, TierWrite.l2graph] ↔
      tierDefaults.l1EnergyThreshold ≤ exNodeC.energy) ∧
    [TierWrite.l1, TierWrite.l2vector, TierWrite.l2graph].indexOf TierWrite.l1 <
      [TierWrite.l1, TierWrite.l2vector, TierWrite.l2graph].indexOf TierWrite.l2vector := by
  have hok : tierStoreWrites tierDefaults exNodeC =
      .ok ([TierWrite.l1, TierWrite.l2vector, TierWrite.l2graph], "L1") := by
    have hv2 : exNodeC.vector.isEmpty = false := rfl
    have hth : tierDefaults.l1EnergyThreshold ≤ exNodeC.energy := by
      show (1 : ℚ)/2 ≤ 6/10
      norm_num
    simp [tierStoreWrites, hv2, hth]
  have h := tier_store_write_order tierDefaults exNodeC (by decide) _ _ hok
  exact ⟨hok, h.1, h.2.1, h.2.2 (by decide)⟩

/-! ## C2 — idempotence of knowledge `store` on an identical object -/

theorem findByKey_storeRows (rows : List KTriple) (t r : KTriple)
    (h : findByKey rows t.subject t.predicate = some r) :
    findByKey (storeRows rows t) t.subject t.predicate =
      some (upsertRow r t) := by
  induction rows with
  | nil => simp [findByKey] at h
  | cons a as ih =>
    by_cases hk : a.subject = t.subject ∧ a.predicate = t.predicate
    · simp only [findByKey, if_pos hk, Option.some.injEq] at h
      subst h
      simp only [storeRows, if_pos hk]
      have hk2 : (upsertRow a t).subject = t.subject ∧
          (upsertRow a t).predicate = t.predicate := hk
      simp only [findByKey, if_pos hk2]
    · simp only [findByKey, if_neg hk] at h
      simp only [storeRows, if_neg hk, findByKey, if_neg hk]
      exact ih h

/-- C2 counterexample: the claim says `store` of a triple whose object
equals the stored one leaves the stored triple unchanged (no version
bump, no `previous_values` entry).  Storing the very same triple twice
yields `version = 2` and `previous_values = ["Guido"]`: the upsert has
no identical-object guard. -/
theorem knowledge_store_not_idempotent_counterexample :
    (storeTriple (storeTriple emptyKDB exTripleA) exTripleA).triples =
      [upsertRow exTripleA exTripleA] ∧
    (upsertRow exTripleA exTripleA).version = 2 ∧
    (upsertRow exTripleA exTripleA).previousValues = ["Guido"] ∧
    (upsertRow exTripleA exTripleA).version ≠ exTripleA.version ∧
    (upsertRow exTripleA exTripleA).previousValues ≠ exTripleA.previousValues :=
  ⟨rfl, rfl, rfl, by decide, by decide⟩

/-- C2 (amended): `store` with a triple matching an existing row on the
exact `(subject, predicate)` key — in particular with an identical
object — is NOT idempotent: it bumps `version` by one and appends the
old (identical) object value to `previous_values`.  `store` writes no
history row for any input, so the history table is unchanged. -/
theorem knowledge_store_same_object_bumps_version (db : KDB) (t r : KTriple)
    (hfind : findByKey db.triples t.subject t.predicate = some r)
    (hobj : t.object = r.object) :
    findByKey (storeTriple db t).triples t.subject t.predicate =
      some (upsertRow r t) ∧
    (upsertRow r t).version = r.version + 1 ∧
    (upsertRow r t).previousValues = r.previousValues ++ [r.object] ∧
    (upsertRow r t).object = r.object ∧
    (storeTriple db t).history = db.history :=
  ⟨findByKey_storeRows db.triples t r hfind, rfl, rfl, hobj, rfl⟩

/-- C2 witness: the amended theorem at a concrete store-twice run. -/
theorem knowledge_store_same_object_bumps_version_witness :
    findByKey (storeTriple (storeTriple emptyKDB exTripleA) exTripleA).triples
        exTripleA.subject exTripleA.predicate =
      some (upsertRow exTripleA exTripleA) ∧
    (upsertRow exTripleA exTripleA).version = exTripleA.version + 1 ∧
    (upsertRow exTripleA exTripleA).previousValues =
      exTripleA.previousValues ++ [exTripleA.object] ∧
    (upsertRow exTripleA exTripleA).object = exTripleA.object ∧
    (storeTriple (storeTriple emptyKDB exTripleA) exTripleA).history =
      (storeTriple emptyKDB exTripleA).history :=
  knowledge_store_same_object_bumps_version
    (storeTriple emptyKDB exTripleA) exTripleA exTripleA rfl rfl

/-! ## C3 — global uniqueness of the `(subject, predicate)` key -/

theorem storeRows_key_source (rs : List KTriple) (t : KTriple) :
    ∀ x ∈ storeRows rs t,
      (x.subject = t.subject ∧ x.predicate = t.predicate) ∨
      ∃ y ∈ rs, x.subject = y.subject ∧ x.predicate = y.predicate := by
  induction rs with
  | nil =>
    intro x hx
    simp only [storeRows, List.mem_singleton] at hx
    subst hx
    exact Or.inl ⟨rfl, rfl⟩
  | cons a as ih =>
    intro x hx
    by_cases hk : a.subject = t.subject ∧ a.predicate = t.predicate
    · simp only [storeRows, if_pos hk, List.mem_cons] at hx
      rcases hx with hx | hx
      · subst hx
        exact Or.inr ⟨a, List.mem_cons_self a as, rfl, rfl⟩
      · exact Or.inr ⟨x, List.mem_cons_of_mem a hx, rfl, rfl⟩
    · simp only [storeRows, if_neg hk, List.mem_cons] at hx
      rcases hx with hx | hx
      · subst hx
        exact Or.inr ⟨x, List.mem_cons_self x as, rfl, rfl⟩
      · rcases ih x hx with h | ⟨y, hy, h1, h2⟩
        · exact Or.inl h
        · exact Or.inr ⟨y, List.mem_cons_of_mem a hy, h1, h2⟩

theorem storeRows_pairwise (rs : List KTriple) (t : KTriple)
    (h : rs.Pairwise fun a b => ¬ KeyClash a b) :
    (storeRows rs t).Pairwise fun a b => ¬ KeyClash a b := by
  induction rs with
  | nil => simp [storeRows]
  | cons a as ih =>
    rcases List.pairwise_cons.mp h with ⟨ha, has⟩
    by_cases hk : a.subject = t.subject ∧ a.predicate = t.predicate
    · simp only [storeRows, if_pos hk]
      refine List.pairwise_cons.mpr ⟨?_, has⟩
      intro b hb hclash
      exact ha b hb hclash
    · simp only [storeRows, if_neg hk]
      refine List.pairwise_cons.mpr ⟨?_, ih has⟩
      intro b hb hclash
      rcases storeRows_key_source as t b hb with hbt | ⟨y, hy, h1, h2⟩
      · exact hk ⟨hclash.1.trans hbt.1, hclash.2.trans hbt.2⟩
      · exact ha y hy ⟨hclash.1.trans h1, hclash.2.trans h2⟩

/-- C3 (amended): in every state reachable by a sequence of `store`
calls from an empty database, at most one triple exists per EXACT
`(subject, predicate)` key (the uniqueness constraint and the upsert
arbiter are both case-sensitive). -/
theorem knowledge_keys_globally_unique (ts : List KTriple) :
    (applyStores ts).triples.Pairwise fun a b => ¬ KeyClash a b := by
  suffices h : ∀ (db : KDB), db.triples.Pairwise (fun a b => ¬ KeyClash a b) →
      (ts.foldl storeTriple db).triples.Pairwise fun a b => ¬ KeyClash a b by
    exact h emptyKDB (by simp [emptyKDB])
  intro db hdb
  exact foldlPreserve
    (P := fun d : KDB => d.triples.Pairwise fun a b => ¬ KeyClash a b)
    (f := storeTriple)
    (fun d u hd => storeRows_pairwise d.triples u hd) ts db hdb

/-- C3 witness: key uniqueness at a concrete store sequence. -/
theorem knowledge_keys_globally_unique_witness :
    (applyStores [exTripleB, exTripleC]).triples.Pairwise
      fun a b => ¬ KeyClash a b :=
  knowledge_keys_globally_unique [exTripleB, exTripleC]

/-- C3 counterexample: the claim says uniqueness is CASE-INSENSITIVE on
`(lower(subject), lower(predicate))`.  Storing `("A", "p", ...)` and
then `("a", "p", ...)` leaves TWO coexisting triples whose keys differ
only in letter case, because the SQL constraint `UNIQUE(subject,
predicate)` and the `ON CONFLICT` arbiter compare exactly. -/
theorem knowledge_case_clash_counterexample :
    (applyStores [exTripleB, exTripleC]).triples = [exTripleB, exTripleC] ∧
    lowerChars exTripleB.subject.data = lowerChars exTripleC.subject.data ∧
    lowerChars exTripleB.predicate.data = lowerChars exTripleC.predicate.data ∧
    exTripleB.subject ≠ exTripleC.subject :=
  ⟨rfl, by decide, by decide, by decide⟩

/-! ## C7 — energy bounds -/

/-- C7 (amended): under the operations the system issues — access
boosts with nonnegative amounts, exponential decay (factor in `[0,1]`),
and `update_energy` — a node's energy stays within `[0, 1]`.  The lower
bound is `0`, NOT `min_energy`: only the decay path enforces the
`min_energy` floor, while `L1WorkingMemory.update_energy` clamps to
`[0.0, 1.0]`. -/
theorem energy_stays_in_unit_interval :
    ∀ (ops : List EnergyOp) (e : ℚ), 0 ≤ e → e ≤ 1 →
      (∀ op ∈ ops, EnergyOpOK op) →
      0 ≤ applyEnergyOps energyDefaults e ops ∧
        applyEnergyOps energyDefaults e ops ≤ 1 := by
  intro ops
  induction ops with
  | nil => intro e h0 h1 _; exact ⟨h0, h1⟩
  | cons op rest ih =>
    intro e h0 h1 hops
    have hop := hops op (List.mem_cons_self op rest)
    have hrest : ∀ o ∈ rest, EnergyOpOK o :=
      fun o ho => hops o (List.mem_cons_of_mem op ho)
    have hstep : 0 ≤ applyEnergyOp energyDefaults e op ∧
        applyEnergyOp energyDefaults e op ≤ 1 := by
      cases op with
      | boost a =>
        have ha : (0:ℚ) ≤ a := hop
        constructor
        · exact le_min (by norm_num [energyDefaults]) (add_nonneg h0 ha)
        · exact (min_le_left _ _).trans (by norm_num [energyDefaults])
      | decay dt f =>
        obtain ⟨hf0, hf1⟩ : (0:ℚ) ≤ f ∧ f ≤ 1 := hop
        simp only [applyEnergyOp]
        split
        · exact ⟨h0, h1⟩
        · constructor
          · exact le_trans (by norm_num [energyDefaults]) (le_max_left _ _)
          · exact max_le (by norm_num [energyDefaults]) (mul_le_one₀ h1 hf0 hf1)
      | updateEnergy v =>
        exact ⟨le_max_left 0 _, max_le (by norm_num) (min_le_left 1 v)⟩
    exact ih (applyEnergyOp energyDefaults e op) hstep.1 hstep.2 hrest

/-- C7 counterexample: the claim says `min_energy ≤ energy` holds after
any `update_energy`.  Updating a node with energy `0.5` to `0.0` (as
`record_event` does on strongly negative feedback) leaves energy `0.0`,
which is below `min_energy = 0.01`: the L1 clamp is `[0.0, 1.0]`, not
`[min_energy, 1.0]`. -/
theorem energy_below_min_energy_counterexample :
    applyEnergyOps energyDefaults (1/2) [EnergyOp.updateEnergy 0] = 0 ∧
    ¬ energyDefaults.minEnergy ≤
        applyEnergyOps energyDefaults (1/2) [EnergyOp.updateEnergy 0] := by
  have h : applyEnergyOps energyDefaults (1/2) [EnergyOp.updateEnergy 0] = 0 := by
    show max 0 (min 1 0) = 0
    rw [min_eq_right (by norm_num : (0:ℚ) ≤ 1), max_self]
  refine ⟨h, ?_⟩
  rw [h]
  norm_num [energyDefaults]

/-- C7 witness: the amended bounds theorem at a concrete operation
sequence. -/
theorem energy_stays_in_unit_interval_witness :
    0 ≤ applyEnergyOps energyDefaults (1/2)
        [EnergyOp.updateEnergy (3/10), EnergyOp.boost (1/10)] ∧
    applyEnergyOps energyDefaults (1/2)
        [EnergyOp.updateEnergy (3/10), EnergyOp.boost (1/10)] ≤ 1 :=
  energy_stays_in_unit_interval
    [EnergyOp.updateEnergy (3/10), EnergyOp.boost (1/10)] (1/2)
    (by norm_num) (by norm_num)
    (by
      intro op hop
      rcases List.mem_cons.mp hop with h | hop2
      · subst h; exact trivial
      · rcases List.mem_cons.mp hop2 with h | hop3
        · subst h
          show (0:ℚ) ≤ 1/10
          norm_num
        · exact absurd hop3 (List.not_mem_nil op))

/-! ## C5 — L1 eviction -/

theorem nodeDictAssign_keys (d : List (String × MemoryNode)) (k : String)
    (v : MemoryNode) :
    ∀ q ∈ nodeDictAssign d k v, q.1 = k ∨ q.1 ∈ d.map Prod.fst := by
  induction d with
  | nil =>
    intro q hq
    simp only [nodeDictAssign, List.mem_singleton] at hq
    subst hq
    exact Or.inl rfl
  | cons p rest ih =>
    intro q hq
    by_cases hp : p.1 = k
    · simp only [nodeDictAssign, if_pos hp, List.mem_cons] at hq
      rcases hq with hq | hq
      · subst hq; exact Or.inl rfl
      · exact Or.inr (List.mem_map_of_mem Prod.fst (List.mem_cons_of_mem p hq))
    · simp only [nodeDictAssign, if_neg hp, List.mem_cons] at hq
      rcases hq with hq | hq
      · subst hq; exact Or.inr (by simp)
      · rcases ih q hq with h | h
        · exact Or.inl h
        · exact Or.inr (by rw [List.map_cons]; exact List.mem_cons_of_mem p.1 h)

theorem L1Wf_assign (d : List (String × MemoryNode)) (k : String)
    (v : MemoryNode) (h : L1Wf d) (hk : k = v.id) :
    L1Wf (nodeDictAssign d k v) := by
  induction d with
  | nil =>
    refine ⟨by simp [nodeDictAssign], ?_⟩
    intro p hp
    simp only [nodeDictAssign, List.mem_singleton] at hp
    subst hp
    exact hk
  | cons p rest ih =>
    obtain ⟨hnd, hids⟩ := h
    rw [List.map_cons] at hnd
    obtain ⟨hp1, hrest⟩ := List.nodup_cons.mp hnd
    by_cases hpk : p.1 = k
    · simp only [nodeDictAssign, if_pos hpk]
      refine ⟨?_, ?_⟩
      · rw [List.map_cons, List.nodup_cons]
        exact ⟨by rw [← hpk]; exact hp1, hrest⟩
      · intro q hq
        rcases List.mem_cons.mp hq with hq | hq
        · rw [hq]; exact hk
        · exact hids q (List.mem_cons_of_mem p hq)
    · simp only [nodeDictAssign, if_neg hpk]
      have hwrest : L1Wf rest :=
        ⟨hrest, fun q hq => hids q (List.mem_cons_of_mem p hq)⟩
      obtain ⟨ihnd, ihids⟩ := ih hwrest
      refine ⟨?_, ?_⟩
      · rw [List.map_cons, List.nodup_cons]
        refine ⟨?_, ihnd⟩
        intro hmem
        rcases List.mem_map.mp hmem with ⟨q, hq, hq1⟩
        rcases nodeDictAssign_keys rest k v q hq with h1 | h1
        · exact hpk (by rw [← hq1, h1])
        · exact hp1 (by rw [← hq1]; exact h1)
      · intro q hq
        rcases List.mem_cons.mp hq with hq | hq
        · rw [hq]; exact hids p (List.mem_cons_self p rest)
        · exact ihids q hq

/-- C5 (amended): when a `put` takes the L1 dict over capacity, the
eviction helper removes exactly `count - cap` entries from the dict and
they are the lowest-energy ones (every evicted node's energy is at most
every survivor's energy); but the evicted nodes are NOT returned to the
caller of `put` — `put` returns `None` and discards the helper's return
value, so the Tier Manager never sees them. -/
theorem l1_put_evicts_lowest_energy (cap : ℕ)
    (d : List (String × MemoryNode)) (n : MemoryNode) (hwf : L1Wf d)
    (hover : cap < (nodeDictAssign d n.id { n with tier := "L1" }).length) :
    (l1Put cap d n).1 =
      (evictLowestEnergy cap (nodeDictAssign d n.id { n with tier := "L1" })).1 ∧
    (l1Put cap d n).2 = none ∧
    (evictLowestEnergy cap (nodeDictAssign d n.id { n with tier := "L1" })).2.length =
      (nodeDictAssign d n.id { n with tier := "L1" }).length - cap ∧
    ∀ e ∈ (evictLowestEnergy cap (nodeDictAssign d n.id { n with tier := "L1" })).2,
      ∀ p ∈ (evictLowestEnergy cap (nodeDictAssign d n.id { n with tier := "L1" })).1,
        e.energy ≤ p.2.energy := by
  set d1 := nodeDictAssign d n.id { n with tier := "L1" } with hd1
  have hwf1 : L1Wf d1 := L1Wf_assign d n.id { n with tier := "L1" } hwf rfl
  have hle : ¬ d1.length ≤ cap := Nat.not_le.mpr hover
  have hev : evictLowestEnergy cap d1 =
      (d1.filter fun p =>
        decide (p.1 ∉ (((d1.map Prod.snd).insertionSort energyAsc).take
          (d1.length - cap)).map MemoryNode.id),
       ((d1.map Prod.snd).insertionSort energyAsc).take (d1.length - cap)) := by
    simp only [evictLowestEnergy, if_neg hle]
  have hput1 : (l1Put cap d n).1 = (evictLowestEnergy cap d1).1 := by
    simp only [l1Put, ← hd1, if_pos hover]
  have hput2 : (l1Put cap d n).2 = none := by
    simp only [l1Put, ← hd1, if_pos hover]
  have hperm : ((d1.map Prod.snd).insertionSort energyAsc).Perm (d1.map Prod.snd) :=
    List.perm_insertionSort energyAsc (d1.map Prod.snd)
  have hsortlen : ((d1.map Prod.snd).insertionSort energyAsc).length = d1.length := by
    rw [hperm.length_eq, List.length_map]
  have hlen : (evictLowestEnergy cap d1).2.length = d1.length - cap := by
    rw [hev]
    simp only [List.length_take, hsortlen]
    exact Nat.min_eq_left (Nat.sub_le _ _)
  refine ⟨hput1, hput2, hlen, ?_⟩
  intro e he p hp
  rw [hev] at he hp
  simp only at he hp
  rcases List.mem_filter.mp hp with ⟨hpmem, hpkey⟩
  have hpnot : p.1 ∉ (((d1.map Prod.snd).insertionSort energyAsc).take
      (d1.length - cap)).map MemoryNode.id := of_decide_eq_true hpkey
  have hpid : p.1 = p.2.id := hwf1.2 p hpmem
  have hpsnd : p.2 ∈ (d1.map Prod.snd).insertionSort energyAsc :=
    hperm.mem_iff.mpr (List.mem_map_of_mem Prod.snd hpmem)
  have hcat : p.2 ∈ ((d1.map Prod.snd).insertionSort energyAsc).take (d1.length - cap) ++
      ((d1.map Prod.snd).insertionSort energyAsc).drop (d1.length - cap) := by
    rw [List.take_append_drop]
    exact hpsnd
  rcases List.mem_append.mp hcat with htake | hdrop
  · exact absurd (hpid ▸ List.mem_map_of_mem MemoryNode.id htake) hpnot
  · have hsorted : List.Sorted energyAsc ((d1.map Prod.snd).insertionSort energyAsc) :=
      List.sorted_insertionSort energyAsc (d1.map Prod.snd)
    exact pairwiseTakeDrop hsorted (d1.length - cap) e he p.2 hdrop

/-- C5 counterexample: the claim says the evicted nodes are returned to
the caller of `put`.  A concrete over-capacity `put` evicts one node
(the eviction list has length 1) yet `put` returns `None`, so nothing
is returned to the Tier Manager for demotion. -/
theorem l1_put_discards_evictions_counterexample :
    (l1Put 1 exDict exNodeB).2 = none ∧
    (evictLowestEnergy 1 (nodeDictAssign exDict exNodeB.id
        { exNodeB with tier := "L1" })).2.length = 1 := by
  constructor
  · rfl
  · show ((([exNodeA, { exNodeB with tier := "L1" }]).insertionSort
        energyAsc).take 1).length = 1
    rw [List.length_take,
      (List.perm_insertionSort energyAsc _).length_eq]
    rfl

/-- C5 witness: the amended eviction theorem at a concrete
over-capacity `put`: one entry is evicted and `put` still returns
`None`. -/
theorem l1_put_evicts_lowest_energy_witness :
    (l1Put 1 exDict exNodeB).1 =
      (evictLowestEnergy 1 (nodeDictAssign exDict exNodeB.id
        { exNodeB with tier := "L1" })).1 ∧
    (l1Put 1 exDict exNodeB).2 = none ∧
    (evictLowestEnergy 1 (nodeDictAssign exDict exNodeB.id
        { exNodeB with tier := "L1" })).2.length =
      (nodeDictAssign exDict exNodeB.id { exNodeB with tier := "L1" }).length - 1 := by
  have h := l1_put_evicts_lowest_energy 1 exDict exNodeB
    ⟨by decide, by decide⟩ (by decide)
  exact ⟨h.1, h.2.1, h.2.2.1⟩

/-! ## C8 — monotonicity of spreading activation in `max_hops` -/

theorem actLookup_cons (q : String × ℚ) (l : List (String × ℚ)) (n : String) :
    actLookup (q :: l) n = if q.1 = n then q.2 else actLookup l n := by
  by_cases h : q.1 = n
  · rw [if_pos h]
    rw [actLookup, List.find?_cons_of_pos _ (by simpa using h)]
    rfl
  · rw [if_neg h]
    rw [actLookup, List.find?_cons_of_neg _ (by simpa using h)]
    rfl

theorem actLookup_waveInsertMax_ge :
    ∀ (a : List (String × ℚ)) (k : String) (v : ℚ) (n : String), 0 ≤ v →
      actLookup a n ≤ actLookup (waveInsertMax a k v) n := by
  intro a
  induction a with
  | nil =>
    intro k v n hv
    rw [waveInsertMax, actLookup_cons]
    by_cases h : k = n
    · rw [if_pos h]
      exact hv
    · rw [if_neg h]
  | cons p rest ih =>
    intro k v n hv
    rw [waveInsertMax]
    by_cases hpk : p.1 = k
    · rw [if_pos hpk, actLookup_cons, actLookup_cons]
      by_cases hn : p.1 = n
      · have hkn : k = n := by rw [← hpk]; exact hn
        rw [if_pos hn, if_pos hkn]
        exact le_max_left p.2 v
      · have hkn : ¬ k = n := fun he => hn (hpk.trans he)
        rw [if_neg hn, if_neg hkn]
    · rw [if_neg hpk, actLookup_cons, actLookup_cons]
      by_cases hn : p.1 = n
      · rw [if_pos hn, if_pos hn]
      · rw [if_neg hn, if_neg hn]
        exact ih k v n hv

theorem waveInsertMax_forall_nonneg :
    ∀ (a : List (String × ℚ)) (k : String) (v : ℚ),
      (∀ p ∈ a, 0 ≤ p.2) → 0 ≤ v →
      ∀ p ∈ waveInsertMax a k v, 0 ≤ p.2 := by
  intro a
  induction a with
  | nil =>
    intro k v _ hv p hp
    rw [waveInsertMax, List.mem_singleton] at hp
    rw [hp]
    exact hv
  | cons q rest ih =>
    intro k v ha hv p hp
    rw [waveInsertMax] at hp
    by_cases hqk : q.1 = k
    · rw [if_pos hqk] at hp
      rcases List.mem_cons.mp hp with h | h
      · rw [h]
        exact le_trans (ha q (List.mem_cons_self q rest)) (le_max_left q.2 v)
      · exact ha p (List.mem_cons_of_mem q h)
    · rw [if_neg hqk] at hp
      rcases List.mem_cons.mp hp with h | h
      · rw [h]
        exact ha q (List.mem_cons_self q rest)
      · exact ih k v (fun r hr => ha r (List.mem_cons_of_mem q hr)) hv p h

theorem actLookup_mergeMax_ge :
    ∀ (w a : List (String × ℚ)) (n : String), (∀ p ∈ w, 0 ≤ p.2) →
      actLookup a n ≤ actLookup (mergeMax a w) n := by
  intro w
  induction w with
  | nil =>
    intro a n _
    exact le_refl _
  | cons p rest ih =>
    intro a n hw
    have h1 := actLookup_waveInsertMax_ge a p.1 p.2 n
      (hw p (List.mem_cons_self p rest))
    have h2 := ih (waveInsertMax a p.1 p.2) n
      (fun q hq => hw q (List.mem_cons_of_mem p hq))
    exact le_trans h1 h2

theorem spreadCollect_nonneg (g : GraphState) (valid : List String)
    (decay : ℚ) (wave : List (String × ℚ)) :
    ∀ p ∈ spreadCollect g valid decay wave, 0 ≤ p.2 := by
  rw [spreadCollect]
  refine foldlPreserve (P := fun acc : List (String × ℚ) => ∀ p ∈ acc, 0 ≤ p.2) ?_ wave []
    (fun p hp => absurd hp (List.not_mem_nil p))
  intro acc entry hacc
  refine foldlPreserve (P := fun acc2 : List (String × ℚ) => ∀ p ∈ acc2, 0 ≤ p.2) ?_
    (successors g entry.1) acc hacc
  intro acc2 q hacc2
  by_cases hval : decide (q.1 ∈ valid)
  · simp only [hval, if_true]
    by_cases hth : 1/100 < entry.2 * decay * q.2
    · simp only [if_pos hth]
      exact waveInsertMax_forall_nonneg acc2 q.1 (entry.2 * decay * q.2) hacc2
        (le_of_lt (lt_trans (by norm_num) hth))
    · simp only [if_neg hth]
      exact hacc2
  · simp only [Bool.not_eq_true] at hval
    simp only [hval, if_false]
    exact hacc2

theorem spreadLoop_ge_act (g : GraphState) (valid : List String) (decay : ℚ) :
    ∀ (h : ℕ) (act wave : List (String × ℚ)) (n : String),
      actLookup act n ≤ actLookup (spreadLoop g valid decay h act wave) n := by
  intro h
  induction h with
  | zero =>
    intro act wave n
    exact le_refl _
  | succ h ih =>
    intro act wave n
    have hmerge := actLookup_mergeMax_ge (spreadCollect g valid decay wave) act n
      (spreadCollect_nonneg g valid decay wave)
    simp only [spreadLoop]
    by_cases he : (spreadCollect g valid decay wave).isEmpty
    · simp only [he, if_true]
      exact hmerge
    · simp only [he, if_false]
      exact le_trans hmerge
        (ih (mergeMax act (spreadCollect g valid decay wave))
          (spreadCollect g valid decay wave) n)

theorem spreadLoop_mono (g : GraphState) (valid : List String) (decay : ℚ) :
    ∀ (h δ : ℕ) (act wave : List (String × ℚ)) (n : String),
      actLookup (spreadLoop g valid decay h act wave) n ≤
        actLookup (spreadLoop g valid decay (h + δ) act wave) n := by
  intro h
  induction h with
  | zero =>
    intro δ act wave n
    have h0 : (0 : ℕ) + δ = δ := Nat.zero_add δ
    rw [h0]
    exact spreadLoop_ge_act g valid decay δ act wave n
  | succ h ih =>
    intro δ act wave n
    have hadd : h + 1 + δ = (h + δ) + 1 := by omega
    rw [hadd]
    simp only [spreadLoop]
    by_cases he : (spreadCollect g valid decay wave).isEmpty
    · simp only [he, if_true]
      exact le_refl _
    · simp only [he, if_false]
      exact ih δ (mergeMax act (spreadCollect g valid decay wave))
        (spreadCollect g valid decay wave) n

/-- C8: spreading activation is monotone in `max_hops`: for every graph,
seed set, decay factor, user partition and node, increasing the hop
budget never decreases the node's activation score (missing entries of
the activation map count as `0`). -/
theorem spread_activation_monotone_in_hops (g : GraphState)
    (startIds : List String) (decay : ℚ) (userId : String) (n : String)
    (h1 h2 : ℕ) (hle : h1 ≤ h2) :
    actLookup (spreadActivation g startIds h1 decay userId) n ≤
      actLookup (spreadActivation g startIds h2 decay userId) n := by
  obtain ⟨δ, rfl⟩ := Nat.exists_eq_add_of_le hle
  simp only [spreadActivation]
  exact spreadLoop_mono g (validNodes g userId) decay h1 δ _ _ n

/-- C8 witness: monotonicity at a concrete two-edge graph `A → B → C`
comparing `max_hops = 1` and `max_hops = 2`. -/
theorem spread_activation_monotone_in_hops_witness :
    actLookup (spreadActivation exGraph ["A"] 1 (1/2) "") "C" ≤
      actLookup (spreadActivation exGraph ["A"] 2 (1/2) "") "C" :=
  spread_activation_monotone_in_hops exGraph ["A"] (1/2) "" "C" 1 2 (by decide)

/-! ## C9 — a single confirmation response resolves ALL pending updates -/

theorem confirmFoldKeys (sess : String) :
    ∀ (p : List PendingEntry) (db : KDB),
      (p.map PendingEntry.key).foldl
          (fun s k => (confirmPending s k sess).1)
          { pending := p, db := db } =
        { pending := [], db := p.foldl (execPending sess) db } := by
  intro p
  induction p with
  | nil => intro db; rfl
  | cons e es ih =>
    intro db
    have hstep : (confirmPending { pending := e :: es, db := db } e.key sess).1 =
        { pending := es, db := execPending sess db e } := by
      cases hex : e.existing with
      | some ex => simp [confirmPending, popPending, execPending, hex]
      | none => simp [confirmPending, popPending, execPending, hex]
    simp only [List.map_cons, List.foldl_cons, hstep]
    exact ih (execPending sess db e)

theorem rejectFoldKeys :
    ∀ (p : List PendingEntry) (db : KDB),
      (p.map PendingEntry.key).foldl
          (fun s k => (rejectPending s k).1)
          { pending := p, db := db } =
        { pending := [], db := db } := by
  intro p
  induction p with
  | nil => intro db; rfl
  | cons e es ih =>
    intro db
    have hstep : (rejectPending { pending := e :: es, db := db } e.key).1 =
        { pending := es, db := db } := by
      simp [rejectPending, popPending]
    simp only [List.map_cons, List.foldl_cons, hstep]
    exact ih db

/-- C9: when any updates are pending, a single positive
natural-language confirmation response confirms and executes EVERY
pending knowledge update currently queued (the database ends up as the
fold of the confirm action over the whole pending queue, and the queue
is emptied), and a single negative response rejects all of them (queue
emptied, database untouched) — not only the update of the most recent
prompt. -/
theorem confirmation_response_resolves_all_pending (st : ConfirmationState)
    (msg sess : String) (hne : st.pending ≠ []) :
    (isPositiveResponse msg = true →
      processConfirmationResponse st msg sess =
        ({ pending := [], db := st.pending.foldl (execPending sess) st.db },
         true, "好的，知识已更新！")) ∧
    (isPositiveResponse msg = false → isNegativeResponse msg = true →
      processConfirmationResponse st msg sess =
        ({ pending := [], db := st.db }, true, "好的，保持原有记录。")) := by
  obtain ⟨p, db⟩ := st
  simp only at hne
  have hne2 : p.isEmpty = false := by
    cases p with
    | nil => exact absurd rfl hne
    | cons a l => rfl
  constructor
  · intro hp
    simp only [processConfirmationResponse, hne2, hp, Bool.not_true,
      Bool.false_and, Bool.false_eq_true, if_false, if_true]
    exact congrArg (fun s => (s, true, "好的，知识已更新！")) (confirmFoldKeys sess p db)
  · intro hp hn
    simp only [processConfirmationResponse, hne2, hp, hn, Bool.not_true,
      Bool.not_false, Bool.and_false, Bool.false_eq_true, if_false]
    exact congrArg (fun s => (s, true, "好的，保持原有记录。")) (rejectFoldKeys p db)

/-- C9 witness: a single "yes" resolves a queue of two pending updates,
executing both. -/
theorem confirmation_response_resolves_all_pending_witness :
    processConfirmationResponse exConfState "yes" "s1" =
      ({ pending := [],
         db := exConfState.pending.foldl (execPending "s1") exConfState.db },
       true, "好的，知识已更新！") :=
  (confirmation_response_resolves_all_pending exConfState "yes" "s1"
    (by decide)).1 (by decide)

/-! ## C10 — recall falls back to the highest-energy L1 nodes -/

/-- C10: `recall` never propagates an embedding or search failure: when
the query embedding is empty or all-zero, or the L2 vector search
returns no hits, it returns `get_top_k(k)` of L1 working memory — and
those are exactly the `k` highest-energy L1 nodes (every node left out
has energy at most that of every node returned). -/
theorem recall_falls_back_to_l1 (searchFn : List ℚ → ℕ → List (MemoryNode × ℚ))
    (tierGet : String → Option MemoryNode) (g : GraphState)
    (l1nodes : List MemoryNode) (qv : List ℚ) (k : ℕ) (hops : ℕ) (decay : ℚ)
    (us : Bool) :
    ((qv.isEmpty || qv.all fun v => decide (v = 0)) = true →
      recallFn searchFn tierGet g l1nodes qv k hops decay us =
        getTopKByEnergy l1nodes k) ∧
    ((searchFn qv (k * 2)).isEmpty = true →
      recallFn searchFn tierGet g l1nodes qv k hops decay us =
        getTopKByEnergy l1nodes k) ∧
    (getTopKByEnergy l1nodes k).length = min k l1nodes.length ∧
    (∀ a ∈ getTopKByEnergy l1nodes k, ∀ b ∈ l1nodes,
      b ∉ getTopKByEnergy l1nodes k → b.energy ≤ a.energy) := by
  refine ⟨?_, ?_, ?_, ?_⟩
  · intro h
    simp only [recallFn, h, if_true]
  · intro h
    by_cases h1 : (qv.isEmpty || qv.all fun v => decide (v = 0)) = true
    · simp only [recallFn, h1, if_true]
    · simp only [Bool.not_eq_true] at h1
      simp only [recallFn, h1, if_false, h, if_true]
      split <;> rfl
  · rw [getTopKByEnergy, List.length_take,
      (List.perm_insertionSort energyDesc l1nodes).length_eq]
  · intro a ha b hb hnb
    rw [getTopKByEnergy] at ha hnb
    have hsorted := List.sorted_insertionSort energyDesc l1nodes
    have hbmem : b ∈ l1nodes.insertionSort energyDesc :=
      (List.perm_insertionSort energyDesc l1nodes).mem_iff.mpr hb
    have hcat : b ∈ (l1nodes.insertionSort energyDesc).take k ++
        (l1nodes.insertionSort energyDesc).drop k := by
      rw [List.take_append_drop]
      exact hbmem
    rcases List.mem_append.mp hcat with hmem | hmem
    · exact absurd hmem hnb
    · exact pairwiseTakeDrop hsorted k a ha b hmem

/-- C10 witness: the fallback theorem at a concrete empty query
embedding. -/
theorem recall_falls_back_to_l1_witness :
    recallFn (fun _ _ => []) (fun _ => none) emptyGraph [exNodeB, exNodeA]
        [] 1 2 (1/2) true =
      getTopKByEnergy [exNodeB, exNodeA] 1 :=
  (recall_falls_back_to_l1 (fun _ _ => []) (fun _ => none) emptyGraph
    [exNodeB, exNodeA] [] 1 2 (1/2) true).1 (by decide)

end BIEM
